import Mathlib

/-!
Verification of the micropacker path-closure construction: a shallow
embedding of the Go sources (micropacker.go and its helper file) together
with theorems about the embedded definitions.

The filesystem is modelled as a finite association list from path strings
to entries (regular file with content, directory, or symlink with target).
Go maps whose values are `bool` are modelled as duplicate-free lists of
strings with an `insertKey` operation; all claims about those maps are
membership statements, so list order is irrelevant to every theorem.
Recursive absorption (Go recurses on the on-disk symlink chain, with no
cycle detection) is given explicit fuel; a `none` result models a run that
does not return normally (unbounded recursion, or a Go runtime panic such
as the slice-bounds panic in the relative-link rewrite).
-/

namespace Micropacker

/-- A filesystem entry as seen by Lstat: regular file (with byte content
modelled as characters), directory, or symbolic link with a raw target. -/
inductive Entry where
  | file (content : List Char)
  | dir
  | symlink (target : String)
deriving DecidableEq

/-- The filesystem: a finite map from path strings to entries. -/
def Fs : Type := List (String × Entry)

/-- Lookup of a path in the filesystem; `none` models an Lstat error. -/
def fsLookup (fs : Fs) (p : String) : Option Entry :=
  match fs with
  | [] => none
  | (q, e) :: rest => if q = p then some e else fsLookup rest p

/-- Go strings.HasPrefix on raw character lists. -/
def charsPref : List Char → List Char → Bool
  | [], _ => true
  | _ :: _, [] => false
  | a :: as, b :: bs => if a = b then charsPref as bs else false

/-- Go strings.HasPrefix s pre: does `s` start with the string `pre`. -/
def goHasPref (s pre : String) : Bool :=
  charsPref pre.data s.data

/-- Split a character list on a separator, as Go strings.Split does
(an empty input yields one empty field; separators delimit fields). -/
def splitChar (sep : Char) : List Char → List (List Char)
  | [] => [[]]
  | c :: rest =>
      match splitChar sep rest with
      | [] => [[c]]
      | r0 :: rs => if c = sep then [] :: r0 :: rs else (c :: r0) :: rs

/-- Go path.IsAbs: a path is absolute when it starts with a slash. -/
def isAbsPath (p : String) : Bool :=
  match p.data with
  | '/' :: _ => true
  | _ => false

/-- The characters of `n` strictly before its last slash, or `none` when
`n` contains no slash (where the Go expression n[:LastIndexByte(n, 47)]
would slice with a negative index and panic). -/
def beforeLastSlash : List Char → Option (List Char)
  | [] => none
  | c :: rest =>
      match beforeLastSlash rest with
      | some r => some (c :: r)
      | none => if c = '/' then some [] else none

/-- Go path/filepath Clean, restricted to slash-separated paths: empty
input becomes ".", "."/empty segments are dropped, ".." pops the previous
segment (and is dropped at the root of a rooted path), and the result
never has a trailing slash except the bare root. -/
def filepathClean (p : String) : String :=
  match p.data with
  | [] => "."
  | l =>
      let rooted : Bool := match l with | '/' :: _ => true | _ => false
      let segs := (splitChar '/' l).filter (fun s => s ≠ [] ∧ s ≠ ['.'])
      let out := segs.foldl
        (fun acc seg =>
          if seg = ['.', '.'] then
            match acc with
            | [] => if rooted then [] else [seg]
            | a :: rest => if a = ['.', '.'] then seg :: a :: rest else rest
          else seg :: acc) ([] : List (List Char))
      let body := List.intercalate ['/'] out.reverse
      let full := if rooted then '/' :: body else body
      if full = [] then "." else String.mk full

/-- IsDir from the helper file: Lstat the path; on success report whether
the mode has the directory bit; on failure propagate the error (`none`). -/
def IsDir (fs : Fs) (filename : String) : Option Bool :=
  match fsLookup fs filename with
  | some .dir => some true
  | some _ => some false
  | none => none

/-- IsSymlink from the helper file: Lstat the path; on success report
whether the mode has the symlink bit; on failure propagate the error. -/
def IsSymlink (fs : Fs) (filename : String) : Option Bool :=
  match fsLookup fs filename with
  | some (.symlink _) => some true
  | some _ => some false
  | none => none

/-- os.Readlink with its error discarded, as in addToSetsFromPath:
the target of a symlink, or the empty string. -/
def goReadlink (fs : Fs) (p : String) : String :=
  match fsLookup fs p with
  | some (.symlink t) => t
  | _ => ""

/-- The rewrite of a symlink target to a full path: an absolute target is
kept; a relative one is appended to everything before the last slash of
the symlink path. `none` models the Go slice-bounds panic when the
symlink path contains no slash. -/
def resolveLink (n linkPath : String) : Option String :=
  if isAbsPath linkPath then some linkPath
  else
    match beforeLastSlash n.data with
    | none => none
    | some cut => some (String.mk (cut ++ ('/' :: linkPath.data)))

/-- The hardcoded ignore list of addToSetsFromPath. -/
def defaultIgnorePaths : List String := ["/dev", "/proc", "/sys", "/var/lib/docker"]

/-- The ignore test applied to a path classified as a symlink: some list
entry followed by a slash is a string prefix of the path. -/
def symlinkIgnoreHit (ignorePaths : List String) (n : String) : Bool :=
  ignorePaths.any (fun pre => goHasPref n (pre ++ "/"))

/-- The ignore test applied to a path classified as a directory: some
list entry followed by a slash is a string prefix, or the path equals
the entry exactly. -/
def folderIgnoreHit (ignorePaths : List String) (n : String) : Bool :=
  ignorePaths.any (fun pre => goHasPref n (pre ++ "/") || pre == n)

/-- The ignore test applied to a path classified as a regular file: some
list entry followed by a slash is a string prefix of the path. -/
def fileIgnoreHit (ignorePaths : List String) (n : String) : Bool :=
  ignorePaths.any (fun pre => goHasPref n (pre ++ "/"))

/-- The container state: configuration plus the two accumulated sets
(Go maps from string to bool, modelled as duplicate-free lists). -/
structure BaseContainer where
  pathEnvVar : String
  unsafePaths : Bool
  debugMode : Bool
  fileSet : List String
  folderSet : List String
deriving DecidableEq

/-- newBaseContainer: empty sets, configuration as given. -/
def newBaseContainer (pathEnvVar : String) (unsafePaths debugMode : Bool) : BaseContainer :=
  ⟨pathEnvVar, unsafePaths, debugMode, [], []⟩

/-- Go map insertion `m[k] = true`: a no-op when the key is present,
otherwise the key is appended. -/
def insertKey (l : List String) (k : String) : List String :=
  if k ∈ l then l else l ++ [k]

/-- lookEnvForFile loop body: walk the folders split from PATH in order,
probe folder + "/" + file, skip folders (and Lstat errors), and return
the first non-directory hit. -/
def lookLoop (fs : Fs) (file : String) : List String → String × Bool
  | [] => ("", false)
  | folder :: rest =>
      let newFile := folder ++ "/" ++ file
      match fsLookup fs newFile with
      | some .dir => lookLoop fs file rest
      | some _ => (newFile, true)
      | none => lookLoop fs file rest

/-- lookEnvForFile: split the PATH environment variable on ":" and scan
the folders in order for the file. -/
def lookEnvForFile (fs : Fs) (container : BaseContainer) (file : String) : String × Bool :=
  lookLoop fs file ((splitChar ':' container.pathEnvVar.data).map String.mk)

/-- The effective ignore list: the hardcoded paths, or nothing when the
user enabled unsafe archiving. -/
def effIgnorePaths (unsafePaths : Bool) : List String :=
  if unsafePaths then [] else defaultIgnorePaths

/-- addToSetsFromPath, with explicit fuel for the recursion on symlink
targets. A `none` result models a run that does not return normally.
The Go control flow is kept: the symlink branch falls through to the
IsDir test (which answers false for a symlink), so an accepted symlink
is inserted a second time by the regular-file branch. -/
def addToSetsFromPath (fs : Fs) : Nat → BaseContainer → String → Option BaseContainer
  | 0, _, _ => none
  | fuel + 1, container, pathString =>
      let ignorePaths := effIgnorePaths container.unsafePaths
      let n := filepathClean pathString
      match IsSymlink fs n with
      | some true =>
          if symlinkIgnoreHit ignorePaths n then some container
          else
            let c1 := { container with fileSet := insertKey container.fileSet n }
            match resolveLink n (goReadlink fs n) with
            | none => none
            | some linkPath =>
                match addToSetsFromPath fs fuel c1 linkPath with
                | none => none
                | some c2 =>
                    -- fall through: IsDir is (false, nil) for a symlink,
                    -- so the regular-file branch runs on n as well
                    if fileIgnoreHit ignorePaths n then some c2
                    else some { c2 with fileSet := insertKey c2.fileSet n }
      | none => some container
      | some false =>
          match IsDir fs n with
          | some true =>
              if folderIgnoreHit ignorePaths n then some container
              else some { container with folderSet := insertKey container.folderSet n }
          | some false =>
              if fileIgnoreHit ignorePaths n then some container
              else some { container with fileSet := insertKey container.fileSet n }
          | none => some container

/-- The main input loop restricted to absorption: feed each candidate
line to addToSetsFromPath in order. -/
def runList (fs : Fs) (fuel : Nat) : BaseContainer → List String → Option BaseContainer
  | container, [] => some container
  | container, p :: ps =>
      match addToSetsFromPath fs fuel container p with
      | none => none
      | some c1 => runList fs fuel c1 ps

/-- IsFolderNeeded from the helper file: a folder is not needed when some
file entry has it as a string prefix, or some other folder entry has it
as a string prefix. -/
def IsFolderNeeded (folder : String) (fileSet folderSet : List String) : Bool :=
  if fileSet.any (fun fileEntry => goHasPref fileEntry folder) then false
  else if folderSet.any (fun folderEntry =>
      goHasPref folderEntry folder && folder != folderEntry) then false
  else true

/-- The needed-folder computation of finalize: keep the folders that
IsFolderNeeded accepts, then apply the /tmp consistency rule: when no
file entry starts with "/tmp/" and no kept folder is exactly "/tmp" or
"/tmp/", the entry "/tmp/" is inserted. -/
def finalizeNeeded (fileSet folderSet : List String) : List String :=
  let needed := folderSet.filter (fun folder => IsFolderNeeded folder fileSet folderSet)
  let foundTmp := fileSet.any (fun k => goHasPref k "/tmp/")
  if foundTmp then needed
  else if needed.any (fun k => k == "/tmp" || k == "/tmp/") then needed
  else insertKey needed "/tmp/"

/-- finalize: the merged output slice, needed folders first, then the
file set. -/
def finalize (container : BaseContainer) : List String :=
  finalizeNeeded container.fileSet container.folderSet ++ container.fileSet

/-- A Go call result: a normal value, a returned error, or a runtime
panic. -/
inductive GoResult (α : Type) where
  | ok (val : α)
  | err (msg : String)
  | panicked
deriving DecidableEq

/-- GetInterpFromExec. `statFs` models os.Stat results (symlink targets
already followed); `elfInterp` models elf.Open followed by the .interp
section read: `none` when elf.Open fails (its error is discarded by the
source, so the subsequent Section call dereferences a nil pointer —
`panicked`), `some none` when the file parses but has no .interp section,
and `some (some bytes)` for the section data. An empty section would
make interp[0 : len(interp)-1] slice with a negative bound — `panicked`. -/
def GetInterpFromExec (statFs : Fs) (elfInterp : String → Option (Option (List Char)))
    (file : String) : GoResult String :=
  match fsLookup statFs file with
  | some (.file _) =>
      match elfInterp file with
      | none => .panicked
      | some none => .err "[GetInterpFromExec]: couldn't find the interp section"
      | some (some interp) =>
          match interp with
          | [] => .panicked
          | _ :: _ => .ok (String.mk interp.dropLast)
  | some _ => .err ("[GetInterpFromExec]: " ++ file ++ " is not a regular file")
  | none => .err ("stat " ++ file ++ ": no such file or directory")

/-- One archive entry: header name plus the data the source records for
the corresponding kind (link target for a symlink, streamed content for
a regular file, nothing for a directory). -/
inductive TarEntry where
  | dirE (name : String)
  | symlinkE (name : String) (linkname : String)
  | fileE (name : String) (content : List Char)
deriving DecidableEq

/-- Names of the immediate children of directory `d` in the filesystem:
keys of the form d ++ "/" ++ name with a slash-free name. -/
def childNames (fs : Fs) (d : String) : List String :=
  fs.filterMap (fun pe =>
    let q := pe.1
    if goHasPref q (d ++ "/") then
      let rest := q.data.drop (d.data.length + 1)
      if rest ≠ [] ∧ '/' ∉ rest then some (String.mk rest) else none
    else none)

/-- Insert into a list sorted by string order. -/
def insertSorted (s : String) : List String → List String
  | [] => [s]
  | t :: rest => if s ≤ t then s :: t :: rest else t :: insertSorted s rest

/-- Insertion sort by string order, modelling the sorted directory
listing that filepath.Walk reads. -/
def sortStrings : List String → List String
  | [] => []
  | s :: rest => insertSorted s (sortStrings rest)

/-- The walk over the sorted children of a directory: apply the subtree
walk to each child in order, concatenating the entry lists and aborting
on the first error. -/
def walkChildren (recur : String → Option (List TarEntry)) (d : String) :
    List String → Option (List TarEntry)
  | [] => some []
  | name :: names =>
      match recur (d ++ "/" ++ name) with
      | none => none
      | some here =>
          match walkChildren recur d names with
          | none => none
          | some rest => some (here ++ rest)

/-- addToTar: filepath.Walk from a root path. The walk Lstats the root
(`none` on error, which aborts the archive); a symlink contributes one
entry carrying its link target, a regular file one entry carrying its
content, and a directory its own entry followed by the walks of its
children in sorted order. Fuel bounds the directory depth. -/
def addToTar (fs : Fs) : Nat → String → Option (List TarEntry)
  | 0, _ => none
  | fuel + 1, path =>
      match fsLookup fs path with
      | none => none
      | some (.symlink t) => some [.symlinkE path t]
      | some (.file content) => some [.fileE path content]
      | some .dir =>
          match walkChildren (addToTar fs fuel) path (sortStrings (childNames fs path)) with
          | none => none
          | some rest => some (.dirE path :: rest)

/-- WriteTar: add every path of the finalized list to the archive in
order, aborting the whole operation on the first error. -/
def WriteTar (fs : Fs) (fuel : Nat) : List String → Option (List TarEntry)
  | [] => some []
  | path :: paths =>
      match addToTar fs fuel path with
      | none => none
      | some here =>
          match WriteTar fs fuel paths with
          | none => none
          | some rest => some (here ++ rest)

/-! ### Helper lemmas about `insertKey` -/

theorem mem_insertKey {l : List String} {k x : String} :
    x ∈ insertKey l k ↔ x = k ∨ x ∈ l := by
  unfold insertKey
  by_cases h : k ∈ l
  · rw [if_pos h]
    constructor
    · exact Or.inr
    · rintro (rfl | hx)
      · exact h
      · exact hx
  · rw [if_neg h]
    simp [or_comm]

theorem mem_insertKey_self {l : List String} {k : String} : k ∈ insertKey l k :=
  mem_insertKey.mpr (Or.inl rfl)

theorem mem_insertKey_of_mem {l : List String} {k x : String} (h : x ∈ l) :
    x ∈ insertKey l k :=
  mem_insertKey.mpr (Or.inr h)

theorem insertKey_of_mem {l : List String} {k : String} (h : k ∈ l) :
    insertKey l k = l := by
  simp [insertKey, h]

theorem mem_foldl_insertKey {xs : List String} :
    ∀ {l : List String} {x : String},
      x ∈ xs.foldl insertKey l ↔ x ∈ l ∨ x ∈ xs := by
  induction xs with
  | nil => simp
  | cons a as ih =>
      intro l x
      simp only [List.foldl_cons, ih, mem_insertKey, List.mem_cons]
      tauto

theorem foldl_insertKey_of_subset {xs : List String} :
    ∀ {l : List String}, (∀ x ∈ xs, x ∈ l) → xs.foldl insertKey l = l := by
  induction xs with
  | nil => simp
  | cons a as ih =>
      intro l h
      have ha : a ∈ l := h a (List.mem_cons_self a as)
      simp only [List.foldl_cons, insertKey_of_mem ha]
      exact ih fun x hx => h x (List.mem_cons_of_mem a hx)

/-! ### The contribution of one absorbed candidate

`collect` computes, purely from the filesystem, the fuel, the unsafe
flag and the candidate path, the list of keys the absorption inserts
into each of the two sets (in insertion order, duplicates included).
It is a proof device: `addToSetsFromPath` never reads the accumulated
sets, so it equals folding the collected keys into the starting state. -/

def collect (fs : Fs) (unsafePaths : Bool) : Nat → String → Option (List String × List String)
  | 0, _ => none
  | fuel + 1, pathString =>
      let ignorePaths := effIgnorePaths unsafePaths
      let n := filepathClean pathString
      match IsSymlink fs n with
      | some true =>
          if symlinkIgnoreHit ignorePaths n then some ([], [])
          else
            match resolveLink n (goReadlink fs n) with
            | none => none
            | some linkPath =>
                match collect fs unsafePaths fuel linkPath with
                | none => none
                | some (fls, dls) =>
                    if fileIgnoreHit ignorePaths n then some (n :: fls, dls)
                    else some (n :: (fls ++ [n]), dls)
      | none => some ([], [])
      | some false =>
          match IsDir fs n with
          | some true =>
              if folderIgnoreHit ignorePaths n then some ([], []) else some ([], [n])
          | some false =>
              if fileIgnoreHit ignorePaths n then some ([], []) else some ([n], [])
          | none => some ([], [])

theorem addToSetsFromPath_eq_collect (fs : Fs) :
    ∀ (fuel : Nat) (c : BaseContainer) (p : String),
      addToSetsFromPath fs fuel c p =
        (collect fs c.unsafePaths fuel p).map
          (fun d => { c with
            fileSet := d.1.foldl insertKey c.fileSet,
            folderSet := d.2.foldl insertKey c.folderSet }) := by
  intro fuel
  induction fuel with
  | zero => intro c p; rfl
  | succ fuel ih =>
      intro c p
      obtain ⟨pev, u, dbg, fls0, fds0⟩ := c
      simp only [addToSetsFromPath, collect]
      rcases hn : fsLookup fs (filepathClean p) with _ | e
      · simp [IsSymlink, hn]
      · rcases e with content | _ | t
        · -- regular file
          simp only [IsSymlink, IsDir, hn]
          split <;> simp_all
        · -- directory
          simp only [IsSymlink, IsDir, hn]
          split <;> simp_all
        · -- symlink
          simp only [IsSymlink, IsDir, goReadlink, hn]
          split
          · simp_all
          · rcases hr : resolveLink (filepathClean p) t with _ | linkPath
            · simp
            · dsimp only
              rw [ih]
              dsimp only
              rcases hc : collect fs u fuel linkPath with _ | ⟨fls, dls⟩
              · simp
              · simp only [Option.map]
                split <;> simp_all [List.foldl_append]


/-- Absorption in terms of its contribution: success is decided by
`collect` (which never reads the accumulated sets), and on success the
result is the starting state with the collected keys folded in. -/
theorem absorb_of_collect {fs : Fs} {fuel : Nat} {c : BaseContainer} {p : String}
    {d : List String × List String} (h : collect fs c.unsafePaths fuel p = some d) :
    addToSetsFromPath fs fuel c p =
      some { c with
        fileSet := d.1.foldl insertKey c.fileSet,
        folderSet := d.2.foldl insertKey c.folderSet } := by
  rw [addToSetsFromPath_eq_collect, h, Option.map]

theorem collect_of_absorb {fs : Fs} {fuel : Nat} {c c' : BaseContainer} {p : String}
    (h : addToSetsFromPath fs fuel c p = some c') :
    ∃ d, collect fs c.unsafePaths fuel p = some d ∧
      c' = { c with
        fileSet := d.1.foldl insertKey c.fileSet,
        folderSet := d.2.foldl insertKey c.folderSet } := by
  rw [addToSetsFromPath_eq_collect] at h
  rcases hc : collect fs c.unsafePaths fuel p with _ | d
  · rw [hc] at h; exact absurd h (by simp)
  · rw [hc] at h
    exact ⟨d, rfl, by simpa using h.symm⟩

theorem absorb_none_iff {fs : Fs} {fuel : Nat} {c : BaseContainer} {p : String} :
    addToSetsFromPath fs fuel c p = none ↔ collect fs c.unsafePaths fuel p = none := by
  rw [addToSetsFromPath_eq_collect]
  rcases collect fs c.unsafePaths fuel p with _ | d <;> simp

theorem absorb_flags {fs : Fs} {fuel : Nat} {c c' : BaseContainer} {p : String}
    (h : addToSetsFromPath fs fuel c p = some c') :
    c'.pathEnvVar = c.pathEnvVar ∧ c'.unsafePaths = c.unsafePaths ∧
      c'.debugMode = c.debugMode := by
  obtain ⟨d, _, rfl⟩ := collect_of_absorb h
  exact ⟨rfl, rfl, rfl⟩

theorem absorb_mem_fileSet {fs : Fs} {fuel : Nat} {c c' : BaseContainer} {p : String}
    (h : addToSetsFromPath fs fuel c p = some c') {d : List String × List String}
    (hd : collect fs c.unsafePaths fuel p = some d) :
    ∀ x, x ∈ c'.fileSet ↔ x ∈ c.fileSet ∨ x ∈ d.1 := by
  obtain ⟨d', hd', rfl⟩ := collect_of_absorb h
  rw [hd] at hd'
  cases hd'
  intro x
  exact mem_foldl_insertKey

theorem absorb_mem_folderSet {fs : Fs} {fuel : Nat} {c c' : BaseContainer} {p : String}
    (h : addToSetsFromPath fs fuel c p = some c') {d : List String × List String}
    (hd : collect fs c.unsafePaths fuel p = some d) :
    ∀ x, x ∈ c'.folderSet ↔ x ∈ c.folderSet ∨ x ∈ d.2 := by
  obtain ⟨d', hd', rfl⟩ := collect_of_absorb h
  rw [hd] at hd'
  cases hd'
  intro x
  exact mem_foldl_insertKey

theorem absorb_mono {fs : Fs} {fuel : Nat} {c c' : BaseContainer} {p : String}
    (h : addToSetsFromPath fs fuel c p = some c') :
    (∀ x, x ∈ c.fileSet → x ∈ c'.fileSet) ∧
      (∀ x, x ∈ c.folderSet → x ∈ c'.folderSet) := by
  obtain ⟨d, _, rfl⟩ := collect_of_absorb h
  exact ⟨fun x hx => mem_foldl_insertKey.mpr (Or.inl hx),
    fun x hx => mem_foldl_insertKey.mpr (Or.inl hx)⟩

/-- Absorbing a candidate a second time changes nothing: everything its
contribution would insert is already present. -/
theorem absorb_stable {fs : Fs} {fuel : Nat} {c c' : BaseContainer} {p : String}
    (h : addToSetsFromPath fs fuel c p = some c') :
    addToSetsFromPath fs fuel c' p = some c' := by
  obtain ⟨d, hd, rfl⟩ := collect_of_absorb h
  have hu : ({ c with
      fileSet := d.1.foldl insertKey c.fileSet,
      folderSet := d.2.foldl insertKey c.folderSet } : BaseContainer).unsafePaths
      = c.unsafePaths := rfl
  have h2 := absorb_of_collect (c := { c with
      fileSet := d.1.foldl insertKey c.fileSet,
      folderSet := d.2.foldl insertKey c.folderSet }) (hu ▸ hd)
  rw [h2]
  congr 1
  have hf : d.1.foldl insertKey (d.1.foldl insertKey c.fileSet) = d.1.foldl insertKey c.fileSet :=
    foldl_insertKey_of_subset fun x hx => mem_foldl_insertKey.mpr (Or.inr hx)
  have hg : d.2.foldl insertKey (d.2.foldl insertKey c.folderSet) = d.2.foldl insertKey c.folderSet :=
    foldl_insertKey_of_subset fun x hx => mem_foldl_insertKey.mpr (Or.inr hx)
  simp [hf, hg]

/-! ### The absorption loop -/

theorem runList_none_iff {fs : Fs} {fuel : Nat} :
    ∀ {ps : List String} {c : BaseContainer},
      runList fs fuel c ps = none ↔ ∃ p ∈ ps, collect fs c.unsafePaths fuel p = none := by
  intro ps
  induction ps with
  | nil => intro c; simp [runList]
  | cons p ps ih =>
      intro c
      show (match addToSetsFromPath fs fuel c p with
        | none => none
        | some c1 => runList fs fuel c1 ps) = none ↔ _
      rcases h : addToSetsFromPath fs fuel c p with _ | c1
      · constructor
        · intro _
          exact ⟨p, List.mem_cons_self p ps, absorb_none_iff.mp h⟩
        · intro _
          rfl
      · obtain ⟨d, hd, _⟩ := collect_of_absorb h
        have hu := (absorb_flags h).2.1
        rw [ih, hu]
        constructor
        · rintro ⟨q, hq, hcq⟩
          exact ⟨q, List.mem_cons_of_mem p hq, hcq⟩
        · rintro ⟨q, hq, hcq⟩
          rcases List.mem_cons.mp hq with rfl | hq'
          · rw [hd] at hcq; cases hcq
          · exact ⟨q, hq', hcq⟩

theorem runList_some_mem {fs : Fs} {fuel : Nat} :
    ∀ {ps : List String} {c c' : BaseContainer},
      runList fs fuel c ps = some c' →
        c'.unsafePaths = c.unsafePaths ∧
        (∀ x, x ∈ c'.fileSet ↔ x ∈ c.fileSet ∨
          ∃ p ∈ ps, ∃ d, collect fs c.unsafePaths fuel p = some d ∧ x ∈ d.1) ∧
        (∀ x, x ∈ c'.folderSet ↔ x ∈ c.folderSet ∨
          ∃ p ∈ ps, ∃ d, collect fs c.unsafePaths fuel p = some d ∧ x ∈ d.2) := by
  intro ps
  induction ps with
  | nil =>
      intro c c' h
      cases h
      exact ⟨rfl, by simp, by simp⟩
  | cons p ps ih =>
      intro c c' h
      replace h : (match addToSetsFromPath fs fuel c p with
        | none => none
        | some c1 => runList fs fuel c1 ps) = some c' := h
      rcases h1 : addToSetsFromPath fs fuel c p with _ | c1
      · rw [h1] at h; cases h
      · rw [h1] at h
        obtain ⟨d, hd, _⟩ := collect_of_absorb h1
        have hu := (absorb_flags h1).2.1
        obtain ⟨ihu, ihf, ihd⟩ := ih h
        refine ⟨ihu.trans hu, fun x => ?_, fun x => ?_⟩
        · rw [ihf x, hu, absorb_mem_fileSet h1 hd x]
          simp only [List.mem_cons]
          constructor
          · rintro ((hx | hx) | ⟨q, hq, dq, hdq, hxq⟩)
            · exact Or.inl hx
            · exact Or.inr ⟨p, Or.inl rfl, d, hd, hx⟩
            · exact Or.inr ⟨q, Or.inr hq, dq, hdq, hxq⟩
          · rintro (hx | ⟨q, rfl | hq, dq, hdq, hxq⟩)
            · exact Or.inl (Or.inl hx)
            · rw [hd] at hdq; cases hdq; exact Or.inl (Or.inr hxq)
            · exact Or.inr ⟨q, hq, dq, hdq, hxq⟩
        · rw [ihd x, hu, absorb_mem_folderSet h1 hd x]
          simp only [List.mem_cons]
          constructor
          · rintro ((hx | hx) | ⟨q, hq, dq, hdq, hxq⟩)
            · exact Or.inl hx
            · exact Or.inr ⟨p, Or.inl rfl, d, hd, hx⟩
            · exact Or.inr ⟨q, Or.inr hq, dq, hdq, hxq⟩
          · rintro (hx | ⟨q, rfl | hq, dq, hdq, hxq⟩)
            · exact Or.inl (Or.inl hx)
            · rw [hd] at hdq; cases hdq; exact Or.inl (Or.inr hxq)
            · exact Or.inr ⟨q, hq, dq, hdq, hxq⟩

/-- Two absorption outcomes agree as sets: both runs fail, or both
succeed with the same File Set and Directory Set memberships. -/
def sameSets : Option BaseContainer → Option BaseContainer → Prop
  | none, none => True
  | some c1, some c2 =>
      (∀ x, x ∈ c1.fileSet ↔ x ∈ c2.fileSet) ∧
      (∀ x, x ∈ c1.folderSet ↔ x ∈ c2.folderSet)
  | _, _ => False

/-- An example filesystem: a symlink to a regular file, and a directory
with one regular file inside it. -/
def fsW : Fs :=
  [("/a", .symlink "/b"), ("/b", .file ['h', 'i']), ("/d", .dir), ("/d/x", .file ['y'])]

/-- C7: with the filesystem held fixed, the final File Set and Directory
Set depend only on the set of candidate paths absorbed, not on their
order or multiplicity: absorbing the same candidate twice yields the
same two sets as absorbing it once, and absorbing any permutation of
the candidate list yields identical final sets. -/
theorem C7_order_and_multiplicity_independence (fs : Fs) (fuel : Nat) (c : BaseContainer)
    (p : String) (ps qs : List String) :
    runList fs fuel c (p :: p :: ps) = runList fs fuel c (p :: ps) ∧
    (ps.Perm qs → sameSets (runList fs fuel c ps) (runList fs fuel c qs)) := by
  constructor
  · rcases h : addToSetsFromPath fs fuel c p with _ | c1
    · simp only [runList, h]
    · simp only [runList, h, absorb_stable h]
  · intro hperm
    rcases h1 : runList fs fuel c ps with _ | c1
    · have h2 : runList fs fuel c qs = none := by
        rw [runList_none_iff] at h1 ⊢
        obtain ⟨q, hq, hcq⟩ := h1
        exact ⟨q, hperm.mem_iff.mp hq, hcq⟩
      rw [h2]
      trivial
    · rcases h2 : runList fs fuel c qs with _ | c2
      · rw [runList_none_iff] at h2
        obtain ⟨q, hq, hcq⟩ := h2
        have hps : runList fs fuel c ps = none := by
          rw [runList_none_iff]
          exact ⟨q, hperm.mem_iff.mpr hq, hcq⟩
        rw [h1] at hps
        cases hps
      · obtain ⟨_, hf1, hd1⟩ := runList_some_mem h1
        obtain ⟨_, hf2, hd2⟩ := runList_some_mem h2
        refine ⟨fun x => ?_, fun x => ?_⟩
        · rw [hf1 x, hf2 x]
          constructor
          · rintro (hx | ⟨q, hq, dq, hdq, hxq⟩)
            · exact Or.inl hx
            · exact Or.inr ⟨q, hperm.mem_iff.mp hq, dq, hdq, hxq⟩
          · rintro (hx | ⟨q, hq, dq, hdq, hxq⟩)
            · exact Or.inl hx
            · exact Or.inr ⟨q, hperm.mem_iff.mpr hq, dq, hdq, hxq⟩
        · rw [hd1 x, hd2 x]
          constructor
          · rintro (hx | ⟨q, hq, dq, hdq, hxq⟩)
            · exact Or.inl hx
            · exact Or.inr ⟨q, hperm.mem_iff.mp hq, dq, hdq, hxq⟩
          · rintro (hx | ⟨q, hq, dq, hdq, hxq⟩)
            · exact Or.inl hx
            · exact Or.inr ⟨q, hperm.mem_iff.mpr hq, dq, hdq, hxq⟩

/-- Witness for C7 at a concrete filesystem and candidate lists. -/
theorem C7_witness :
    runList fsW 5 (newBaseContainer "" false false) ("/a" :: "/a" :: ["/d"]) =
        runList fsW 5 (newBaseContainer "" false false) ("/a" :: ["/d"]) ∧
    sameSets (runList fsW 5 (newBaseContainer "" false false) ["/a", "/d"])
        (runList fsW 5 (newBaseContainer "" false false) ["/d", "/a"]) := by
  refine ⟨(C7_order_and_multiplicity_independence fsW 5
      (newBaseContainer "" false false) "/a" ["/d"] ["/d"]).1, ?_⟩
  exact (C7_order_and_multiplicity_independence fsW 5
      (newBaseContainer "" false false) "/a" ["/a", "/d"] ["/d", "/a"]).2 (by decide)

/-- Every key a contribution inserts into the file set denotes a
non-directory entry of the filesystem, and every key it inserts into
the folder set denotes a directory. -/
theorem collect_typed {fs : Fs} :
    ∀ (fuel : Nat) (u : Bool) (p : String) (d : List String × List String),
      collect fs u fuel p = some d →
      (∀ x ∈ d.1, ∃ e, fsLookup fs x = some e ∧ e ≠ Entry.dir) ∧
      (∀ x ∈ d.2, fsLookup fs x = some Entry.dir) := by
  intro fuel
  induction fuel with
  | zero => intro u p d h; cases h
  | succ fuel ih =>
      intro u p d h
      simp only [collect] at h
      rcases hn : fsLookup fs (filepathClean p) with _ | e
      · simp only [IsSymlink, hn] at h
        cases h
        exact ⟨by simp, by simp⟩
      · rcases e with content | _ | t
        · simp only [IsSymlink, IsDir, hn] at h
          split at h <;> cases h
          · exact ⟨by simp, by simp⟩
          · refine ⟨fun x hx => ?_, by simp⟩
            rcases List.mem_singleton.mp hx with rfl
            exact ⟨Entry.file content, hn, by simp⟩
        · simp only [IsSymlink, IsDir, hn] at h
          split at h <;> cases h
          · exact ⟨by simp, by simp⟩
          · refine ⟨by simp, fun x hx => ?_⟩
            rcases List.mem_singleton.mp hx with rfl
            exact hn
        · simp only [IsSymlink, IsDir, goReadlink, hn] at h
          split at h
          · cases h
            exact ⟨by simp, by simp⟩
          · rcases hr : resolveLink (filepathClean p) t with _ | lp
            · rw [hr] at h; cases h
            · rw [hr] at h
              dsimp only at h
              rcases hc2 : collect fs u fuel lp with _ | ⟨fls, dls⟩
              · rw [hc2] at h; cases h
              · rw [hc2] at h
                dsimp only at h
                obtain ⟨ih1, ih2⟩ := ih u lp (fls, dls) hc2
                by_cases hfi : fileIgnoreHit (effIgnorePaths u) (filepathClean p) = true
                · rw [if_pos hfi] at h
                  cases h
                  refine ⟨fun x hx => ?_, ih2⟩
                  rcases List.mem_cons.mp hx with rfl | hx'
                  · exact ⟨Entry.symlink t, hn, by simp⟩
                  · exact ih1 x hx'
                · rw [if_neg hfi] at h
                  cases h
                  refine ⟨fun x hx => ?_, ih2⟩
                  rcases List.mem_cons.mp hx with rfl | hx'
                  · exact ⟨Entry.symlink t, hn, by simp⟩
                  · rcases List.mem_append.mp hx' with hx'' | hx''
                    · exact ih1 x hx''
                    · rcases List.mem_singleton.mp hx'' with rfl
                      exact ⟨Entry.symlink t, hn, by simp⟩

/-- The File Set and the Directory Set never share an element. -/
def disjointSets (c : BaseContainer) : Prop :=
  ∀ x, x ∈ c.fileSet → x ∉ c.folderSet

/-- A candidate whose filesystem probe fails leaves the container
untouched. -/
def probeFailNoop (fs : Fs) (c : BaseContainer) : Prop :=
  ∀ (q : String) (fuel : Nat), fsLookup fs (filepathClean q) = none →
    addToSetsFromPath fs (fuel + 1) c q = some c

theorem absorb_probe_fail {fs : Fs} {c : BaseContainer} {q : String} {fuel : Nat}
    (h : fsLookup fs (filepathClean q) = none) :
    addToSetsFromPath fs (fuel + 1) c q = some c := by
  simp [addToSetsFromPath, IsSymlink, h]

/-- C10: at every point during a run the File Set and the Directory Set
are disjoint — each absorbed candidate is added to at most one of the
two sets — and a candidate whose filesystem probe fails is added to
neither set. -/
theorem C10_sets_disjoint (fs : Fs) (fuel : Nat) (pev : String) (u dbg : Bool)
    (ps : List String) (c' : BaseContainer)
    (h : runList fs fuel (newBaseContainer pev u dbg) ps = some c') :
    disjointSets c' ∧ probeFailNoop fs c' := by
  constructor
  · intro x hxf hxd
    obtain ⟨-, hf, hd⟩ := runList_some_mem h
    rcases (hf x).mp hxf with hx | ⟨p, _, d, hdp, hxp⟩
    · exact absurd hx (by simp [newBaseContainer])
    · rcases (hd x).mp hxd with hx' | ⟨p', _, d', hdp', hxp'⟩
      · exact absurd hx' (by simp [newBaseContainer])
      · obtain ⟨e, he, hne⟩ := (collect_typed fuel _ p d hdp).1 x hxp
        have he' := (collect_typed fuel _ p' d' hdp').2 x hxp'
        rw [he] at he'
        cases he'
        exact hne rfl
  · intro q fuel2 hq
    exact absorb_probe_fail hq

/-- Witness for C10 at a concrete run. -/
theorem C10_witness :
    disjointSets ⟨"", false, false, ["/a", "/b"], ["/d"]⟩ ∧
    probeFailNoop fsW ⟨"", false, false, ["/a", "/b"], ["/d"]⟩ :=
  C10_sets_disjoint fsW 5 "" false false ["/a", "/d"] _ (by decide)

/-! ### Closure under symlink targets -/

/-- A path is not under the ignore-list: no list entry is a
segment-boundary prefix of it and it equals no list entry. -/
def notUnderIgnore (ignorePaths : List String) (n : String) : Prop :=
  ∀ pre ∈ ignorePaths, goHasPref n (pre ++ "/") = false ∧ pre ≠ n

theorem symlinkIgnoreHit_eq_false {ign : List String} {n : String}
    (h : notUnderIgnore ign n) : symlinkIgnoreHit ign n = false := by
  rw [Bool.eq_false_iff]
  intro hany
  rw [symlinkIgnoreHit, List.any_eq_true] at hany
  obtain ⟨pre, hpre, hh⟩ := hany
  rw [(h pre hpre).1] at hh
  cases hh

theorem fileIgnoreHit_eq_false {ign : List String} {n : String}
    (h : notUnderIgnore ign n) : fileIgnoreHit ign n = false := by
  rw [Bool.eq_false_iff]
  intro hany
  rw [fileIgnoreHit, List.any_eq_true] at hany
  obtain ⟨pre, hpre, hh⟩ := hany
  rw [(h pre hpre).1] at hh
  cases hh

theorem folderIgnoreHit_eq_false {ign : List String} {n : String}
    (h : notUnderIgnore ign n) : folderIgnoreHit ign n = false := by
  rw [Bool.eq_false_iff]
  intro hany
  rw [folderIgnoreHit, List.any_eq_true] at hany
  obtain ⟨pre, hpre, hh⟩ := hany
  rw [(h pre hpre).1] at hh
  rw [Bool.false_or, beq_iff_eq] at hh
  exact (h pre hpre).2 hh

/-- A successful absorption of an existing, not-ignored candidate puts
its normalized path into one of the two sets. -/
theorem absorb_adds_self {fs : Fs} {fuel : Nat} {c c' : BaseContainer} {p : String}
    (h : addToSetsFromPath fs fuel c p = some c')
    (hex : (fsLookup fs (filepathClean p)).isSome = true)
    (hni : notUnderIgnore (effIgnorePaths c.unsafePaths) (filepathClean p)) :
    filepathClean p ∈ c'.fileSet ∨ filepathClean p ∈ c'.folderSet := by
  cases fuel with
  | zero => cases h
  | succ fuel =>
      simp only [addToSetsFromPath] at h
      rcases hn : fsLookup fs (filepathClean p) with _ | e
      · rw [hn] at hex; cases hex
      · rcases e with content | _ | t
        · simp only [IsSymlink, IsDir, hn, fileIgnoreHit_eq_false hni, if_false,
            Bool.false_eq_true] at h
          cases h
          exact Or.inl mem_insertKey_self
        · simp only [IsSymlink, IsDir, hn, folderIgnoreHit_eq_false hni, if_false,
            Bool.false_eq_true] at h
          cases h
          exact Or.inr mem_insertKey_self
        · simp only [IsSymlink, IsDir, goReadlink, hn, symlinkIgnoreHit_eq_false hni,
            Bool.false_eq_true, if_false] at h
          rcases hr : resolveLink (filepathClean p) t with _ | lp
          · rw [hr] at h; cases h
          · rw [hr] at h
            dsimp only at h
            rcases hi : addToSetsFromPath fs fuel
                { c with fileSet := insertKey c.fileSet (filepathClean p) } lp with _ | c2
            · rw [hi] at h; cases h
            · rw [hi] at h
              dsimp only at h
              have hmem : filepathClean p ∈ c2.fileSet :=
                (absorb_mono hi).1 _ mem_insertKey_self
              rw [fileIgnoreHit_eq_false hni] at h
              simp only [Bool.false_eq_true, if_false] at h
              cases h
              exact Or.inl (mem_insertKey_of_mem hmem)

/-- Any symlink newly inserted into the file set by an absorption has
its existing, not-ignored target present in the resulting sets. -/
theorem absorb_new_symlink_target {fs : Fs} :
    ∀ {fuel : Nat} {c c' : BaseContainer} {p : String},
      addToSetsFromPath fs fuel c p = some c' →
      ∀ s, s ∈ c'.fileSet → s ∉ c.fileSet →
      ∀ t, fsLookup fs s = some (.symlink t) →
      ∀ r, resolveLink s t = some r →
        (fsLookup fs (filepathClean r)).isSome = true →
        notUnderIgnore (effIgnorePaths c.unsafePaths) (filepathClean r) →
        (filepathClean r ∈ c'.fileSet ∨ filepathClean r ∈ c'.folderSet) := by
  intro fuel
  induction fuel with
  | zero => intro c c' p h; cases h
  | succ fuel ih =>
      intro c c' p h s hs hs0 t ht r hr hex hni
      simp only [addToSetsFromPath] at h
      rcases hn : fsLookup fs (filepathClean p) with _ | e
      · simp only [IsSymlink, hn] at h
        cases h
        exact absurd hs hs0
      · rcases e with content | _ | t0
        · simp only [IsSymlink, IsDir, hn] at h
          split at h <;> cases h
          · exact absurd hs hs0
          · rcases mem_insertKey.mp hs with rfl | hsc
            · rw [hn] at ht; cases ht
            · exact absurd hsc hs0
        · simp only [IsSymlink, IsDir, hn] at h
          split at h <;> cases h
          · exact absurd hs hs0
          · exact absurd hs hs0
        · simp only [IsSymlink, IsDir, goReadlink, hn] at h
          split at h
          · cases h
            exact absurd hs hs0
          · rcases hr0 : resolveLink (filepathClean p) t0 with _ | lp
            · rw [hr0] at h; cases h
            · rw [hr0] at h
              dsimp only at h
              rcases hi : addToSetsFromPath fs fuel
                  { c with fileSet := insertKey c.fileSet (filepathClean p) } lp with _ | c2
              · rw [hi] at h; cases h
              · rw [hi] at h
                dsimp only at h
                -- the final state is c2, or c2 with the symlink key re-inserted
                have hs2 : s ∈ c2.fileSet := by
                  split at h <;> cases h
                  · exact hs
                  · rcases mem_insertKey.mp hs with rfl | hsc
                    · exact (absorb_mono hi).1 _ mem_insertKey_self
                    · exact hsc
                have hlift : ∀ x, (x ∈ c2.fileSet ∨ x ∈ c2.folderSet) →
                    (x ∈ c'.fileSet ∨ x ∈ c'.folderSet) := by
                  intro x hx
                  split at h <;> cases h
                  · exact hx
                  · rcases hx with hx | hx
                    · exact Or.inl (mem_insertKey_of_mem hx)
                    · exact Or.inr hx
                by_cases hsn : s = filepathClean p
                · -- the symlink inserted by this very call: its target was
                  -- absorbed by the recursive call
                  subst hsn
                  rw [hn] at ht
                  cases ht
                  rw [hr0] at hr
                  cases hr
                  exact hlift _ (absorb_adds_self hi hex hni)
                · -- a symlink inserted deeper in the chain: induction
                  have hs1 : s ∉ insertKey c.fileSet (filepathClean p) := by
                    intro hmem
                    rcases mem_insertKey.mp hmem with rfl | hsc
                    · exact hsn rfl
                    · exact hs0 hsc
                  exact hlift _ (ih hi s hs2 hs1 t ht r hr hex hni)

/-- Closure of a container state under symlink-following, restricted to
targets that exist and are not under the ignore-list. -/
def SymClosed (fs : Fs) (c : BaseContainer) : Prop :=
  ∀ s ∈ c.fileSet, ∀ t, fsLookup fs s = some (.symlink t) →
    ∀ r, resolveLink s t = some r →
      (fsLookup fs (filepathClean r)).isSome = true →
      notUnderIgnore (effIgnorePaths c.unsafePaths) (filepathClean r) →
      (filepathClean r ∈ c.fileSet ∨ filepathClean r ∈ c.folderSet)

theorem absorb_symClosed {fs : Fs} {fuel : Nat} {c c' : BaseContainer} {p : String}
    (h : addToSetsFromPath fs fuel c p = some c') (hc : SymClosed fs c) :
    SymClosed fs c' := by
  intro s hs t ht r hr hex hni
  have hu : c'.unsafePaths = c.unsafePaths := (absorb_flags h).2.1
  rw [hu] at hni
  by_cases hmem : s ∈ c.fileSet
  · rcases hc s hmem t ht r hr hex hni with htg | htg
    · exact Or.inl ((absorb_mono h).1 _ htg)
    · exact Or.inr ((absorb_mono h).2 _ htg)
  · exact absorb_new_symlink_target h s hs hmem t ht r hr hex hni

/-- C3 (amended): after any run of absorptions, for every symbolic link
in the File Set whose target exists on the filesystem and is not under
the ignore-list, the normalized absolute form of the target (relative
targets resolved against the containing directory of the symlink) is
present in the File Set or the Directory Set. -/
theorem C3_closure_under_symlink_targets (fs : Fs) (fuel : Nat) :
    ∀ (ps : List String) (c c' : BaseContainer),
      runList fs fuel c ps = some c' → SymClosed fs c → SymClosed fs c' := by
  intro ps
  induction ps with
  | nil =>
      intro c c' h hc
      cases h
      exact hc
  | cons p ps ih =>
      intro c c' h hc
      replace h : (match addToSetsFromPath fs fuel c p with
        | none => none
        | some c1 => runList fs fuel c1 ps) = some c' := h
      rcases h1 : addToSetsFromPath fs fuel c p with _ | c1
      · rw [h1] at h; cases h
      · rw [h1] at h
        exact ih c1 c' h (absorb_symClosed h1 hc)

/-- Witness for C3 at a concrete run: a symlink to an existing regular
file, both absorbed. -/
theorem C3_witness : SymClosed fsW ⟨"", false, false, ["/a", "/b"], []⟩ :=
  C3_closure_under_symlink_targets fsW 5 ["/a"] (newBaseContainer "" false false)
    ⟨"", false, false, ["/a", "/b"], []⟩ (by decide)
    (fun s hs => absurd hs (List.not_mem_nil s))

/-- The filesystem for the C3 counterexample: a symlink whose target
does not exist. -/
def fsC3 : Fs := [("/a", .symlink "/b")]

/-- C3 counterexample: the claim as stated fails for a dangling symlink.
The run finishes with the symlink "/a" in the File Set; its target "/b"
is normalized and absolute and is not under the ignore-list, yet "/b"
is in neither final set, because the recursive absorption of the target
hits an Lstat error and discards it. -/
theorem C3_counterexample :
    addToSetsFromPath fsC3 5 (newBaseContainer "" false false) "/a" =
        some ⟨"", false, false, ["/a"], []⟩ ∧
    fsLookup fsC3 "/a" = some (.symlink "/b") ∧
    resolveLink "/a" "/b" = some "/b" ∧
    filepathClean "/b" = "/b" ∧
    notUnderIgnore defaultIgnorePaths "/b" ∧
    ¬ ("/b" ∈ (["/a"] : List String) ∨ "/b" ∈ ([] : List String)) := by
  refine ⟨by decide, by decide, by decide, by decide, ?_, by decide⟩
  intro pre hpre
  fin_cases hpre <;> exact ⟨by decide, by decide⟩

/-! ### The directory necessity reduction -/

theorem isFolderNeeded_iff {folder : String} {fileSet folderSet : List String} :
    IsFolderNeeded folder fileSet folderSet = true ↔
      (∀ f ∈ fileSet, goHasPref f folder = false) ∧
      (∀ d ∈ folderSet, goHasPref d folder = true → folder = d) := by
  unfold IsFolderNeeded
  by_cases h1 : fileSet.any (fun fileEntry => goHasPref fileEntry folder) = true
  · rw [if_pos h1]
    rw [List.any_eq_true] at h1
    obtain ⟨f, hf, hpf⟩ := h1
    constructor
    · intro hfalse; cases hfalse
    · rintro ⟨ha, -⟩
      rw [ha f hf] at hpf
      cases hpf
  · rw [if_neg h1]
    rw [List.any_eq_true] at h1
    push_neg at h1
    by_cases h2 : folderSet.any
        (fun folderEntry => goHasPref folderEntry folder && folder != folderEntry) = true
    · rw [if_pos h2]
      rw [List.any_eq_true] at h2
      obtain ⟨d, hd, hpd⟩ := h2
      rw [Bool.and_eq_true] at hpd
      constructor
      · intro hfalse; cases hfalse
      · rintro ⟨-, hb⟩
        exact absurd (hb d hd hpd.1) (bne_iff_ne.mp hpd.2)
    · rw [if_neg h2]
      rw [List.any_eq_true] at h2
      push_neg at h2
      constructor
      · intro _
        refine ⟨fun f hf => ?_, fun d hd hp => ?_⟩
        · rw [Bool.eq_false_iff]
          exact h1 f hf
        · by_contra hne
          apply h2 d hd
          rw [Bool.and_eq_true]
          exact ⟨hp, bne_iff_ne.mpr hne⟩
      · intro _
        rfl

/-- The needed-test the claim describes: prefix comparison on whole path
segments (an entry followed by a slash must be a string prefix). -/
def claimFolderNeeded (folder : String) (fileSet folderSet : List String) : Bool :=
  !(fileSet.any (fun f => goHasPref f (folder ++ "/"))) &&
  !(folderSet.any (fun d => goHasPref d (folder ++ "/")))

/-- C1 counterexample: the source compares plain string prefixes, not
path-segment prefixes, so the unrelated file "/tmpfoo/x" makes the
reducer drop the directory "/tmp", while the claim says "/tmp" is kept. -/
theorem C1_counterexample :
    IsFolderNeeded "/tmp" ["/tmpfoo/x"] ["/tmp"] = false ∧
    claimFolderNeeded "/tmp" ["/tmpfoo/x"] ["/tmp"] = true := by
  decide

/-- C1 (amended): the Directory Necessity Reducer keeps a directory D
if and only if no file of the File Set has D as a plain string prefix
and no other directory of the Directory Set has D as a plain string
prefix; the test is a naive string prefix, not a path-segment prefix,
so an unrelated entry such as /tmpfoo/x does cause /tmp to be dropped. -/
theorem C1_folder_needed_iff_string_prefix_free (folder : String)
    (fileSet folderSet : List String) :
    IsFolderNeeded folder fileSet folderSet = true ↔
      (¬ ∃ f ∈ fileSet, goHasPref f folder = true) ∧
      (¬ ∃ d ∈ folderSet, goHasPref d folder = true ∧ d ≠ folder) := by
  rw [isFolderNeeded_iff]
  constructor
  · rintro ⟨h1, h2⟩
    constructor
    · rintro ⟨f, hf, hp⟩
      rw [h1 f hf] at hp
      cases hp
    · rintro ⟨d, hd, hp, hne⟩
      exact hne (h2 d hd hp).symm
  · rintro ⟨h1, h2⟩
    refine ⟨fun f hf => ?_, fun d hd hp => ?_⟩
    · rw [Bool.eq_false_iff]
      intro hp
      exact h1 ⟨f, hf, hp⟩
    · by_contra hne
      exact h2 ⟨d, hd, hp, fun he => hne he.symm⟩

/-- C2 counterexample: the scratch-directory rule inserts "/tmp/" even
when a deeper directory under /tmp is already a needed entry, so the
finalized Needed Directory Set can contain an entry that is a strict
prefix of another. -/
theorem C2_counterexample :
    finalizeNeeded [] ["/tmp/foo"] = ["/tmp/foo", "/tmp/"] ∧
    goHasPref "/tmp/foo" "/tmp/" = true ∧
    "/tmp/" ≠ "/tmp/foo" := by
  decide

/-- C2 (amended): after finalization, an entry of the Needed Directory
Set that passed the necessity test is never a strict prefix of a File
Set path nor of another Directory-Set-drawn entry of the Needed
Directory Set; only the scratch entry "/tmp/" added by the consistency
rule can participate in a prefix relation. -/
theorem C2_needed_prefix_free (fileSet folderSet : List String) (d p : String)
    (_hd : d ∈ finalizeNeeded fileSet folderSet)
    (hdn : IsFolderNeeded d fileSet folderSet = true)
    (hp : p ∈ fileSet ∨ (p ∈ finalizeNeeded fileSet folderSet ∧ p ∈ folderSet))
    (hne : d ≠ p) : goHasPref p d = false := by
  rw [isFolderNeeded_iff] at hdn
  rcases hp with hp | ⟨-, hp⟩
  · exact hdn.1 p hp
  · rw [Bool.eq_false_iff]
    intro htrue
    exact hne (hdn.2 p hp htrue)

/-- Witness for C2 at concrete sets. -/
theorem C2_witness : goHasPref "/y" "/x" = false :=
  C2_needed_prefix_free ["/y"] ["/x"] "/x" "/y" (by decide) (by decide)
    (Or.inl (by decide)) (by decide)

/-- C8: when the closure produced no path under the scratch directory,
the finalized Needed Directory Set contains the scratch directory
(the exact entry "/tmp" kept by the necessity test, or the entry
"/tmp/" added unconditionally by the consistency rule). -/
theorem C8_scratch_guarantee (fileSet folderSet : List String)
    (hf : ∀ p ∈ fileSet, goHasPref p "/tmp/" = false)
    (hd : ∀ p ∈ folderSet, goHasPref p "/tmp/" = false) :
    "/tmp" ∈ finalizeNeeded fileSet folderSet ∨
      "/tmp/" ∈ finalizeNeeded fileSet folderSet := by
  have hft : fileSet.any (fun k => goHasPref k "/tmp/") = false := by
    rw [Bool.eq_false_iff]
    intro hany
    rw [List.any_eq_true] at hany
    obtain ⟨k, hk, hkp⟩ := hany
    rw [hf k hk] at hkp
    cases hkp
  have key : finalizeNeeded fileSet folderSet =
      (if (folderSet.filter fun folder => IsFolderNeeded folder fileSet folderSet).any
          (fun k => k == "/tmp" || k == "/tmp/") = true
       then folderSet.filter fun folder => IsFolderNeeded folder fileSet folderSet
       else insertKey (folderSet.filter fun folder =>
          IsFolderNeeded folder fileSet folderSet) "/tmp/") := by
    simp only [finalizeNeeded, hft, Bool.false_eq_true, if_false]
  by_cases h2 : (folderSet.filter fun folder => IsFolderNeeded folder fileSet folderSet).any
      (fun k => k == "/tmp" || k == "/tmp/") = true
  · rw [List.any_eq_true] at h2
    obtain ⟨k, hk, hkp⟩ := h2
    rw [Bool.or_eq_true, beq_iff_eq, beq_iff_eq] at hkp
    rcases hkp with rfl | rfl
    · left
      rw [key, if_pos]
      · exact hk
      · rw [List.any_eq_true]
        exact ⟨"/tmp", hk, by decide⟩
    · have hkf : "/tmp/" ∈ folderSet := (List.mem_filter.mp hk).1
      have := hd "/tmp/" hkf
      rw [show goHasPref "/tmp/" "/tmp/" = true from by decide] at this
      cases this
  · right
    rw [key, if_neg h2]
    exact mem_insertKey_self

/-- Witness for C8 at concrete sets. -/
theorem C8_witness :
    "/tmp" ∈ finalizeNeeded ["/bin/ls"] ["/bin"] ∨
      "/tmp/" ∈ finalizeNeeded ["/bin/ls"] ["/bin"] :=
  C8_scratch_guarantee ["/bin/ls"] ["/bin"] (by decide) (by decide)

/-! ### The ignore-list classification -/

/-- The classifier the claim describes, uniform over all candidate
kinds: ignored iff the path equals an ignore-list entry or has an entry
followed by a slash as a string prefix (a strict segment prefix). -/
def claimIgnored (ignorePaths : List String) (n : String) : Bool :=
  ignorePaths.any (fun pre => pre == n || goHasPref n (pre ++ "/"))

/-- C6 counterexample: for symlink and regular-file candidates the
source checks only entry ++ "/" as a prefix, never equality, so a
symlink or regular file whose normalized path is exactly "/dev" is NOT
ignored — it is absorbed into the File Set — while the claim says every
kind is ignored on equality (which the source does apply to directory
candidates). -/
theorem C6_counterexample :
    symlinkIgnoreHit defaultIgnorePaths "/dev" = false ∧
    fileIgnoreHit defaultIgnorePaths "/dev" = false ∧
    folderIgnoreHit defaultIgnorePaths "/dev" = true ∧
    claimIgnored defaultIgnorePaths "/dev" = true ∧
    addToSetsFromPath [("/dev", .file [])] 2 (newBaseContainer "" false false) "/dev" =
      some ⟨"", false, false, ["/dev"], []⟩ := by
  decide

/-- C6 (amended): for directory candidates the ignore check classifies
a normalized path as ignored iff it equals an ignore-list entry or has
one as a strict segment prefix; for symlink and regular-file candidates
equality with an entry does not count — only a strict segment prefix
does — and otherwise the path is allowed. -/
theorem C6_ignore_classification (ign : List String) (n : String) :
    (folderIgnoreHit ign n = true ↔
      ∃ pre ∈ ign, pre = n ∨ goHasPref n (pre ++ "/") = true) ∧
    (symlinkIgnoreHit ign n = true ↔
      ∃ pre ∈ ign, goHasPref n (pre ++ "/") = true) ∧
    (fileIgnoreHit ign n = true ↔
      ∃ pre ∈ ign, goHasPref n (pre ++ "/") = true) := by
  refine ⟨?_, ?_, ?_⟩
  · rw [folderIgnoreHit, List.any_eq_true]
    constructor
    · rintro ⟨pre, hp, hb⟩
      rw [Bool.or_eq_true, beq_iff_eq] at hb
      exact ⟨pre, hp, hb.symm⟩
    · rintro ⟨pre, hp, hb⟩
      refine ⟨pre, hp, ?_⟩
      rw [Bool.or_eq_true, beq_iff_eq]
      exact hb.symm
  · rw [symlinkIgnoreHit]
    exact List.any_eq_true
  · rw [fileIgnoreHit]
    exact List.any_eq_true

/-! ### The search-path resolver -/

/-- The probe the resolver accepts: the candidate exists and is not a
directory. -/
def probedNonDir (fs : Fs) (p : String) : Bool :=
  match fsLookup fs p with
  | some .dir => false
  | some _ => true
  | none => false

theorem lookLoop_eq (fs : Fs) (file : String) :
    ∀ folders : List String,
      lookLoop fs file folders =
        match folders.find? (fun folder => probedNonDir fs (folder ++ "/" ++ file)) with
        | some folder => (folder ++ "/" ++ file, true)
        | none => ("", false) := by
  intro folders
  induction folders with
  | nil => rfl
  | cons f rest ih =>
      by_cases hp : probedNonDir fs (f ++ "/" ++ file) = true
      · simp only [List.find?, hp]
        simp only [lookLoop]
        rcases hl : fsLookup fs (f ++ "/" ++ file) with _ | e
        · simp only [probedNonDir, hl] at hp
          cases hp
        · rcases e with content | _ | t
          · rfl
          · simp only [probedNonDir, hl] at hp
            cases hp
          · rfl
      · have hp' : probedNonDir fs (f ++ "/" ++ file) = false := by
          rwa [Bool.not_eq_true] at hp
        simp only [List.find?, hp']
        rw [← ih]
        simp only [lookLoop]
        rcases hl : fsLookup fs (f ++ "/" ++ file) with _ | e
        · rfl
        · rcases e with content | _ | t
          · exact absurd (by simp [probedNonDir, hl]) hp
          · rfl
          · exact absurd (by simp [probedNonDir, hl]) hp

/-- C9: the Search-Path Resolver scans the colon-separated folders in
order, probing folder + "/" + name, and returns the first candidate
that exists and is not a directory together with a true flag; when no
folder yields such an entry it returns the empty string with a false
flag — there is no error outcome. -/
theorem C9_search_path_resolver (fs : Fs) (c : BaseContainer) (file folder : String) :
    (((splitChar ':' c.pathEnvVar.data).map String.mk).find?
        (fun folder => probedNonDir fs (folder ++ "/" ++ file)) = some folder →
      lookEnvForFile fs c file = (folder ++ "/" ++ file, true)) ∧
    (((splitChar ':' c.pathEnvVar.data).map String.mk).find?
        (fun folder => probedNonDir fs (folder ++ "/" ++ file)) = none →
      lookEnvForFile fs c file = ("", false)) := by
  unfold lookEnvForFile
  rw [lookLoop_eq]
  constructor
  · intro h
    rw [h]
  · intro h
    rw [h]

/-- The filesystem for the C9 witness: the spec scenario, where only
/opt/jdk/bin/java exists as a regular file on the search path. -/
def fsC9 : Fs := [("/usr/bin", .dir), ("/opt/jdk/bin", .dir), ("/opt/jdk/bin/java", .file [])]

/-- Witness for C9: candidate "java" with search path
"/usr/bin:/opt/jdk/bin" resolves to /opt/jdk/bin/java. -/
theorem C9_witness :
    lookEnvForFile fsC9 (newBaseContainer "/usr/bin:/opt/jdk/bin" false false) "java" =
      ("/opt/jdk/bin" ++ "/" ++ "java", true) :=
  (C9_search_path_resolver fsC9 (newBaseContainer "/usr/bin:/opt/jdk/bin" false false)
    "java" "/opt/jdk/bin").1 (by decide)

/-! ### The ELF interpreter reader -/

/-- The stat results for the C5 scenario: two regular files and a
directory. -/
def statC5 : Fs :=
  [("/bin/sh", .file []), ("/bin/script", .file []), ("/bin/static", .file []), ("/etc", .dir)]

/-- The elf.Open / .interp model for the C5 scenario: /bin/sh is a valid
ELF binary with an interpreter section ending in a NUL terminator,
/bin/static is a valid ELF binary without an .interp section, and
/bin/script cannot be parsed as ELF at all. -/
def elfC5 : String → Option (Option (List Char)) := fun p =>
  if p = "/bin/sh" then some (some ("/lib/ld-musl-x86_64.so.1".data ++ [Char.ofNat 0]))
  else if p = "/bin/static" then some none
  else none

/-- C5: the reader returns an error for a missing path and for a
non-regular file, returns the interpreter string with its trailing
terminator byte stripped on success, and returns an error for a parsed
binary that lacks the interpreter section — but on a regular file that
cannot be parsed as ELF the source discards the elf.Open error and
calls Section on a nil handle, which panics instead of returning an
error. -/
theorem C5_interp_reader :
    GetInterpFromExec statC5 elfC5 "/missing" =
      .err ("stat " ++ "/missing" ++ ": no such file or directory") ∧
    GetInterpFromExec statC5 elfC5 "/etc" =
      .err ("[GetInterpFromExec]: " ++ "/etc" ++ " is not a regular file") ∧
    GetInterpFromExec statC5 elfC5 "/bin/sh" = .ok "/lib/ld-musl-x86_64.so.1" ∧
    GetInterpFromExec statC5 elfC5 "/bin/static" =
      .err "[GetInterpFromExec]: couldn't find the interp section" ∧
    GetInterpFromExec statC5 elfC5 "/bin/script" = .panicked := by
  decide

/-! ### The archive serializer -/

/-- A path whose Lstat answers symlink or regular file: the walk from it
visits exactly the path itself. -/
def isLeafPath (fs : Fs) (p : String) : Bool :=
  match fsLookup fs p with
  | some (.symlink _) => true
  | some (.file _) => true
  | _ => false

/-- The single archive entry the walk records for a leaf path: the link
target for a symlink, the streamed content for a regular file. -/
def tarLeafEntry (fs : Fs) (p : String) : TarEntry :=
  match fsLookup fs p with
  | some (.symlink t) => .symlinkE p t
  | some (.file content) => .fileE p content
  | _ => .dirE p

theorem WriteTar_append (fs : Fs) (fuel : Nat) :
    ∀ xs ys : List String,
      WriteTar fs fuel (xs ++ ys) =
        match WriteTar fs fuel xs, WriteTar fs fuel ys with
        | some l1, some l2 => some (l1 ++ l2)
        | _, _ => none := by
  intro xs
  induction xs with
  | nil =>
      intro ys
      show WriteTar fs fuel ys = _
      rcases WriteTar fs fuel ys with _ | l2 <;> simp [WriteTar]
  | cons x xs ih =>
      intro ys
      show (match addToTar fs fuel x with
        | none => none
        | some here => match WriteTar fs fuel (xs ++ ys) with
          | none => none
          | some rest => some (here ++ rest)) = _
      rcases ha : addToTar fs fuel x with _ | here
      · simp only [WriteTar, ha]
      · rw [ih]
        simp only [WriteTar, ha]
        rcases WriteTar fs fuel xs with _ | l1 <;>
          rcases WriteTar fs fuel ys with _ | l2 <;>
          simp [List.append_assoc]

theorem addToTar_leaf {fs : Fs} {fuel : Nat} {p : String} {here : List TarEntry}
    (h : addToTar fs fuel p = some here) (hleaf : isLeafPath fs p = true) :
    here = [tarLeafEntry fs p] := by
  cases fuel with
  | zero => cases h
  | succ fuel =>
      simp only [addToTar] at h
      rcases hn : fsLookup fs p with _ | e
      · rw [hn] at h; cases h
      · rcases e with content | _ | t
        · rw [hn] at h
          cases h
          simp [tarLeafEntry, hn]
        · rw [isLeafPath, hn] at hleaf
          cases hleaf
        · rw [hn] at h
          cases h
          simp [tarLeafEntry, hn]

theorem WriteTar_leaves {fs : Fs} {fuel : Nat} :
    ∀ {files : List String} {l : List TarEntry},
      (∀ p ∈ files, isLeafPath fs p = true) →
      WriteTar fs fuel files = some l →
      l = files.map (tarLeafEntry fs) := by
  intro files
  induction files with
  | nil =>
      intro l _ h
      cases h
      rfl
  | cons p ps ih =>
      intro l hleaf h
      replace h : (match addToTar fs fuel p with
        | none => none
        | some here => match WriteTar fs fuel ps with
          | none => none
          | some rest => some (here ++ rest)) = some l := h
      rcases ha : addToTar fs fuel p with _ | here
      · rw [ha] at h; cases h
      · rw [ha] at h
        rcases hw : WriteTar fs fuel ps with _ | rest
        · rw [hw] at h; cases h
        · rw [hw] at h
          cases h
          rw [addToTar_leaf ha (hleaf p (List.mem_cons_self p ps)),
            ih (fun q hq => hleaf q (List.mem_cons_of_mem p hq)) hw]
          rfl

/-- C4 (amended): the output archive is the concatenation of the
recursive walks of the Needed Directory Set entries followed by exactly
one entry per File Set path — the link target for a symlink, the byte
content for a regular file. Directories, however, are walked
recursively, so a directory entry is followed by the entries of
everything beneath it on disk (see the counterexample). -/
theorem C4_archive_entries (fs : Fs) (fuel : Nat) (c : BaseContainer)
    (hleaf : ∀ p ∈ c.fileSet, isLeafPath fs p = true)
    (hsome : (WriteTar fs fuel (finalize c)).isSome = true) :
    WriteTar fs fuel (finalize c) =
      (WriteTar fs fuel (finalizeNeeded c.fileSet c.folderSet)).map
        (fun l1 => l1 ++ c.fileSet.map (tarLeafEntry fs)) := by
  unfold finalize at hsome ⊢
  rw [WriteTar_append] at hsome ⊢
  rcases h1 : WriteTar fs fuel (finalizeNeeded c.fileSet c.folderSet) with _ | l1
  · rw [h1] at hsome
    cases hsome
  · rw [h1] at hsome
    rcases h2 : WriteTar fs fuel c.fileSet with _ | l2
    · rw [h2] at hsome
      cases hsome
    · rw [WriteTar_leaves hleaf h2]
      rfl

/-- The filesystem for the C4 theorems: a directory that is non-empty
on disk, a symlink with its target, and the scratch directory. -/
def fsC4 : Fs :=
  [("/d", .dir), ("/d/x", .file ['h', 'i']), ("/a", .symlink "/b"),
   ("/b", .file ['o', 'k']), ("/tmp/", .dir)]

/-- C4 counterexample: a directory entry does contribute archive entries
beyond itself — the walk descends into the directory and also emits its
on-disk children, here the file /d/x which is in neither set. -/
theorem C4_counterexample :
    WriteTar fsC4 5 ["/d"] = some [.dirE "/d", .fileE "/d/x" ['h', 'i']] ∧
    WriteTar fsC4 5 ["/d"] ≠ some [.dirE "/d"] := by
  decide

/-- Witness for C4 at a concrete finalized container. -/
theorem C4_witness :
    WriteTar fsC4 5 (finalize ⟨"", false, false, ["/a", "/b"], ["/d"]⟩) =
      (WriteTar fsC4 5 (finalizeNeeded ["/a", "/b"] ["/d"])).map
        (fun l1 => l1 ++ (["/a", "/b"]).map (tarLeafEntry fsC4)) :=
  C4_archive_entries fsC4 5 ⟨"", false, false, ["/a", "/b"], ["/d"]⟩ (by decide) (by decide)

end Micropacker
